import Mathlib

set_option maxRecDepth 8000

/-!
Shallow embedding of `tools/extract_rooms.py` (the Slime Online 2 room
extractor): the `name = value` mini-language parser, the room-document
parser with its instance classification, the manifest-order parser, and
the aggregation/serialization performed by `main`, together with theorems
checking the specification's claims against this embedding.

Modelling conventions: strings reaching the pipeline are the text/attribute
values already produced by the XML layer; `re.finditer`, `str.replace`,
`str.strip`, `int(...)` and `float(...)` are embedded over `List Char`
(ASCII character classes, as the GMX sources are ASCII); Python floats are
modelled as exact rationals of the parsed literal; a raised `ValueError`
(or the overflow raised by `int(float('inf'))`-like conversions) is
modelled as `Except.error`.
-/

/-- ASCII word character: the regex class `\w` as it applies to the ASCII
room scripts. -/
def isWordChar (c : Char) : Bool := c.isAlphanum || c = '_'

/-- ASCII whitespace: the regex class `\s`, also the set stripped by
`str.strip`. -/
def isPySpace (c : Char) : Bool :=
  c = ' ' || c = '\t' || c = '\n' || c = '\r' || c = '\x0b' || c = '\x0c'

/-- Characters matched by the class `[^\r\n]`. -/
def isLineChar (c : Char) : Bool := !(c = '\r' || c = '\n')

/-- Python `str.strip()` on a character list. -/
def pyStrip (cs : List Char) : List Char :=
  ((cs.dropWhile isPySpace).reverse.dropWhile isPySpace).reverse

/-- Numeric value of an ASCII digit. -/
def digitVal (c : Char) : Nat := c.toNat - 48

/-- Continue a digit run in which single underscores may separate digits
(Python numeric-literal grouping); accumulates the value and the number of
digits, and stops before anything that is not part of the run. -/
def goDigits : Nat → Nat → List Char → Nat × Nat × List Char
  | acc, cnt, [] => (acc, cnt, [])
  | acc, cnt, c :: rest =>
    if c.isDigit then goDigits (acc * 10 + digitVal c) (cnt + 1) rest
    else if c = '_' then
      match rest with
      | d :: r2 =>
        if d.isDigit then goDigits (acc * 10 + digitVal d) (cnt + 1) r2
        else (acc, cnt, c :: rest)
      | [] => (acc, cnt, c :: rest)
    else (acc, cnt, c :: rest)

/-- Consume a nonempty underscore-grouped digit run; returns its value, the
number of digits and the rest of the input. -/
def takeDigitsUS : List Char → Option (Nat × Nat × List Char)
  | c :: rest => if c.isDigit then some (goDigits (digitVal c) 1 rest) else none
  | [] => none

/-- Python `int(str)` after stripping: optional sign, then a digit run that
must consume the whole string. -/
def pyIntCore : List Char → Option Int
  | '+' :: t =>
    match takeDigitsUS t with
    | some (v, _, []) => some ((v : Nat) : Int)
    | _ => none
  | '-' :: t =>
    match takeDigitsUS t with
    | some (v, _, []) => some (-((v : Nat) : Int))
    | _ => none
  | cs =>
    match takeDigitsUS cs with
    | some (v, _, []) => some ((v : Nat) : Int)
    | _ => none

/-- Python `int(str)` (base 10): surrounding whitespace is ignored. -/
def pyInt? (cs : List Char) : Option Int := pyIntCore (pyStrip cs)

/-- Mantissa of a Python float literal: `digits [. [digits]]` or
`. digits`, underscore grouping allowed. Returns the integer formed by all
mantissa digits together with the number of fractional digits, so the
mantissa value is the first component over 10 to the second. -/
def floatMantissa : List Char → Option ((Nat × Nat) × List Char)
  | '.' :: t =>
    match takeDigitsUS t with
    | some (fv, fc, r) => some ((fv, fc), r)
    | none => none
  | cs =>
    match takeDigitsUS cs with
    | some (iv, _, r) =>
      match r with
      | '.' :: r2 =>
        match takeDigitsUS r2 with
        | some (fv, fc, r3) => some ((iv * 10 ^ fc + fv, fc), r3)
        | none => some ((iv, 0), r2)
      | _ => some ((iv, 0), r)
    | none => none

/-- Exponent of a Python float literal (after `e`/`E`): optional sign, then
a digit run consuming the rest of the string. -/
def expPart : List Char → Option Int
  | '+' :: t =>
    match takeDigitsUS t with
    | some (v, _, []) => some ((v : Nat) : Int)
    | _ => none
  | '-' :: t =>
    match takeDigitsUS t with
    | some (v, _, []) => some (-((v : Nat) : Int))
    | _ => none
  | cs =>
    match takeDigitsUS cs with
    | some (v, _, []) => some ((v : Nat) : Int)
    | _ => none

/-- Finite Python float literal as an exact rational, assembled with one
`mkRat` from the signed integer mantissa, the count of fractional digits
and the decimal exponent. -/
def pyFloatCore (cs : List Char) : Option ℚ :=
  let sc : Int × List Char :=
    match cs with
    | '+' :: t => (1, t)
    | '-' :: t => (-1, t)
    | _ => (1, cs)
  match floatMantissa sc.2 with
  | some ((m, fc), r) =>
    match r with
    | [] => some (mkRat (sc.1 * (m : Int)) (10 ^ fc))
    | e :: t =>
      if e = 'e' ∨ e = 'E' then
        match expPart t with
        | some ex =>
          some (mkRat (sc.1 * (m : Int) * 10 ^ ex.toNat) (10 ^ fc * 10 ^ (-ex).toNat))
        | none => none
      else none
  | none => none

/-- Python `float(str)` for finite decimal literals, as an exact rational.
The spellings `inf`/`nan` never contain a decimal point, so they never
reach the float branch of the mini-language coercion; in the coordinate
conversions `int(float(s))` they raise before or at the `int` step, so
all such inputs are modelled as `none` (a conversion failure). -/
def pyFloat? (cs : List Char) : Option ℚ := pyFloatCore (pyStrip cs)

/-- A value stored by the mini-language parser: Python `int`, `float` or
`str`. -/
inductive CodeVal
  | intV (n : Int)
  | floatV (q : ℚ)
  | strV (s : String)
deriving DecidableEq, Repr

/-- Python `dict` with string keys, as an insertion-ordered association
list: assigning to an existing key overwrites in place, a new key is
appended at the end. -/
def dictInsert {α : Type} : List (String × α) → String → α → List (String × α)
  | [], k, v => [(k, v)]
  | (k', v') :: rest, k, v =>
    if k' = k then (k', v) :: rest else (k', v') :: dictInsert rest k v

/-- Lookup in the association-list dictionary. -/
def dictGet {α : Type} : List (String × α) → String → Option α
  | [], _ => none
  | (k', v') :: rest, k => if k' = k then some v' else dictGet rest k

/-- Fuelled core of Python `str.replace` (all non-overlapping occurrences,
left to right). -/
def replaceAllAux : Nat → List Char → List Char → List Char → List Char
  | 0, s, _, _ => s
  | _ + 1, [], _, _ => []
  | fuel + 1, c :: t, pat, rep =>
    if pat ≠ [] ∧ pat.isPrefixOf (c :: t) then
      rep ++ replaceAllAux fuel ((c :: t).drop pat.length) pat rep
    else
      c :: replaceAllAux fuel t pat rep

/-- Python `str.replace` for a nonempty pattern (the script only replaces
nonempty patterns). -/
def replaceAll (s pat rep : List Char) : List Char := replaceAllAux s.length s pat rep

/-- The two numeric character references decoded by `parse_code_vars`
before tokenization. -/
def unescape (cs : List Char) : List Char :=
  replaceAll (replaceAll cs ("&#13;".data) ['\r']) ("&#10;".data) ['\n']

/-- Backtracking of the second `\s*` of the pattern: pop trailing
whitespace (first argument reversed) until a `[^\r\n]` character is
available to start the capture group. -/
def vpop : List Char → List Char → Option (List Char)
  | [], _ => none
  | c :: rest, suffix => if isLineChar c then some (c :: suffix) else vpop rest (c :: suffix)

/-- Start of the capture group `([^\r\n]+)` after a greedy `\s*`: `ws` is
the maximal whitespace run, `rest` what follows it; the longest whitespace
prefix whose continuation can start the group wins. -/
def valueStart (ws rest : List Char) : Option (List Char) :=
  match rest with
  | c :: t => if isLineChar c then some (c :: t) else vpop ws.reverse rest
  | [] => vpop ws.reverse []

/-- Attempt to match `(\w+)\s*=\s*([^\r\n]+)` at the head of the input,
returning the two capture groups and the input after the match. Word
characters are neither whitespace nor `=`, so no backtracking can occur in
`(\w+)` or the first `\s*`; backtracking of the second `\s*` is
`valueStart`. -/
def findMatchAt (cs : List Char) : Option (String × String × List Char) :=
  let w := cs.takeWhile isWordChar
  if w = [] then none
  else
    match (cs.dropWhile isWordChar).dropWhile isPySpace with
    | '=' :: r3 =>
      match valueStart (r3.takeWhile isPySpace) (r3.dropWhile isPySpace) with
      | some start =>
        let v := start.takeWhile isLineChar
        some (⟨w⟩, ⟨v⟩, start.drop v.length)
      | none => none
    | _ => none

/-- One scan step per unit of fuel: try a match at the current position,
otherwise advance one character (`re.finditer` scanning). -/
def scanAux : Nat → List Char → List (String × String)
  | 0, _ => []
  | _ + 1, [] => []
  | fuel + 1, c :: t =>
    match findMatchAt (c :: t) with
    | some (n, v, rest) => (n, v) :: scanAux fuel rest
    | none => scanAux fuel t

/-- All matches of `(\w+)\s*=\s*([^\r\n]+)`, leftmost first and
non-overlapping; the input length bounds the number of scan steps. -/
def scanMatches (cs : List Char) : List (String × String) := scanAux cs.length cs

/-- The value coercion of `parse_code_vars`: a value containing a decimal
point is parsed as a float, otherwise an integer parse is attempted, and
on `ValueError` the (already stripped) string itself is kept. -/
def coerceValue (v : List Char) : CodeVal :=
  if v.contains '.' then
    match pyFloat? v with
    | some q => .floatV q
    | none => .strV ⟨v⟩
  else
    match pyInt? v with
    | some n => .intV n
    | none => .strV ⟨v⟩

/-- `parse_code_vars`: decode the two character references, scan all
`name = value` matches and build the variable dictionary, later
assignments to a name overwriting earlier ones. `none` models Python
`None`; `if not code` treats `None` and the empty string alike. -/
def parse_code_vars : Option String → List (String × CodeVal)
  | none => []
  | some s =>
    if s = "" then []
    else
      (scanMatches (unescape s.data)).foldl
        (fun d p => dictInsert d ⟨pyStrip p.1.data⟩ (coerceValue (pyStrip p.2.data))) []

/-- An uncaught Python exception escaping `parse_room_file` or `main`
(`ValueError` from a numeric conversion, or the overflow of an
`int(float(...))` conversion; either aborts the run). -/
inductive PyErr
  | valueError (msg : String)
deriving DecidableEq, Repr

deriving instance DecidableEq for Except

/-- One `<instance>` element, as the attribute strings ElementTree hands to
`parse_room_file` (`none` models an absent attribute). -/
structure InstXml where
  objName : Option String
  x : Option String
  y : Option String
  code : Option String
  id : Option String
deriving DecidableEq, Repr

/-- A structurally valid room document: the pieces of the ElementTree that
`parse_room_file` inspects. The outer `Option` models element absence
(`root.find(...) is None`), the inner one a missing text node. -/
structure RoomXml where
  width : Option (Option String)
  height : Option (Option String)
  code : Option (Option String)
  instances : Option (List InstXml)
deriving DecidableEq, Repr

/-- A room-document input: either `ET.parse` raises (any malformed file) or
it yields a tree. -/
inductive GmxDoc
  | malformed
  | doc (r : RoomXml)
deriving DecidableEq, Repr

/-- Position record of a spawn point. -/
structure SpawnPoint where
  x : Int
  y : Int
deriving DecidableEq, Repr

/-- A classified warp instance; the three variable-derived fields hold
whatever `code_vars.get` returned (`none` when the variable is absent). -/
structure Warp where
  x : Int
  y : Int
  warp_type : String
  next_room : Option CodeVal
  new_x : Option CodeVal
  new_y : Option CodeVal
  code : String
deriving DecidableEq, Repr

/-- A catalogued generic instance (NPC, shop fixture or special object). -/
structure Instance where
  obj_name : String
  x : Int
  y : Int
  code : String
  instance_id : Int
deriving DecidableEq, Repr

/-- The `RoomData` record produced for one parsed room document. -/
structure RoomData where
  name : String
  room_index : Int
  width : Int
  height : Int
  has_collectibles : Bool
  spawn_points : List SpawnPoint
  warps : List Warp
  npcs : List Instance
  shops : List Instance
  special_objects : List Instance
deriving DecidableEq, Repr

/-- Substring test, Python's `needle in haystack`. -/
def containsSub : List Char → List Char → Bool
  | needle, [] => needle.isEmpty
  | needle, c :: t => needle.isPrefixOf (c :: t) || containsSub needle t

/-- The width/height extraction
`int(elem.text) if elem is not None and elem.text else 0`: an absent
element, absent text or empty text defaults to 0, anything else must
convert with `int` or the `ValueError` escapes. -/
def dimValue : Option (Option String) → Except PyErr Int
  | some (some t) =>
    if t = "" then .ok 0
    else
      match pyInt? t.data with
      | some n => .ok n
      | none => .error (.valueError t)
  | some none => .ok 0
  | none => .ok 0

/-- The room script extraction
`elem.text if elem is not None and elem.text else ""`. -/
def textOrEmpty : Option (Option String) → String
  | some (some t) => if t = "" then "" else t
  | some none => ""
  | none => ""

/-- Python `elem.get(attr, default)`. -/
def attrOr (a : Option String) (d : String) : String := a.getD d

/-- The coordinate conversion `int(float(inst.get("x", 0)))`: the default
`0` converts to `0`, a present attribute must parse as a float (truncated
toward zero) or the exception escapes. -/
def coordValue : Option String → Except PyErr Int
  | none => .ok 0
  | some s =>
    match pyFloat? s.data with
    | some q => .ok (if q < 0 then -((-q).floor) else q.floor)
    | none => .error (.valueError s)

/-- The identifier conversion `int(inst.get("id", 0))`. -/
def idValue : Option String → Except PyErr Int
  | none => .ok 0
  | some s =>
    match pyInt? s.data with
    | some n => .ok n
    | none => .error (.valueError s)

/-- The fixed shop-object catalog. -/
def shopNames : List String := ["obj_shop_item", "obj_shop_call_item", "obj_sell_sign"]

/-- The fixed special-object catalog. -/
def specialNames : List String :=
  ["obj_bank", "obj_mailbox", "obj_storage_box", "obj_save_bg", "obj_clock_stand",
   "obj_warpcenter", "obj_clan_machine", "obj_post_office", "obj_gum_machine",
   "obj_soda_machine", "obj_upgrader", "Planting_Field", "Building_Spot", "obj_drill",
   "obj_race_machine", "obj_race_start_ver", "obj_race_start_hor", "obj_race_end_ver",
   "obj_race_end_hor", "obj_teleporter", "obj_music_changer", "obj_billboard",
   "obj_combinator"]

/-- Python `str.startswith`, character-wise (byte-position string
primitives do not reduce in the kernel, so the prefix test is embedded
over the character list). -/
def strStartsWith (s pre : String) : Bool := pre.data.isPrefixOf s.data

/-- Classification outcome of one instance record. -/
inductive Cat
  | spawn
  | warp
  | npc
  | shop
  | special
  | discard
deriving DecidableEq, Repr

/-- The ordered `if`/`elif` classification chain of `parse_room_file`,
first match wins: exact spawn-point name, then warp prefix, then NPC
prefix, then the shop catalog, then the special-object catalog, else
discard. -/
def classifyName (n : String) : Cat :=
  if n = "obj_slimepoint" then .spawn
  else if strStartsWith n "warp_" then .warp
  else if strStartsWith n "NPC_" then .npc
  else if shopNames.contains n then .shop
  else if specialNames.contains n then .special
  else .discard

/-- The instance loop of `parse_room_file`: coerce the positional
attributes (a failure is the uncaught `ValueError` of the original),
parse the per-instance script, and classify by object name in source
order, accumulating the five collections in document order. -/
def processInstances :
    List InstXml →
    Except PyErr (List SpawnPoint × List Warp × List Instance × List Instance × List Instance)
  | [] => .ok ([], [], [], [], [])
  | inst :: rest =>
    let obj_name := attrOr inst.objName ""
    match coordValue inst.x with
    | .error e => .error e
    | .ok x =>
      match coordValue inst.y with
      | .error e => .error e
      | .ok y =>
        let code := attrOr inst.code ""
        match idValue inst.id with
        | .error e => .error e
        | .ok inst_id =>
          let code_vars := parse_code_vars (some code)
          match processInstances rest with
          | .error e => .error e
          | .ok (sps, ws, ns, shs, sos) =>
            match classifyName obj_name with
            | .spawn => .ok (⟨x, y⟩ :: sps, ws, ns, shs, sos)
            | .warp =>
              .ok (sps,
                ⟨x, y, obj_name, dictGet code_vars "next_room", dictGet code_vars "new_x",
                  dictGet code_vars "new_y", code⟩ :: ws, ns, shs, sos)
            | .npc => .ok (sps, ws, ⟨obj_name, x, y, code, inst_id⟩ :: ns, shs, sos)
            | .shop => .ok (sps, ws, ns, ⟨obj_name, x, y, code, inst_id⟩ :: shs, sos)
            | .special => .ok (sps, ws, ns, shs, ⟨obj_name, x, y, code, inst_id⟩ :: sos)
            | .discard => .ok (sps, ws, ns, shs, sos)

/-- `parse_room_file` on one document whose name stem is `stem`: a
structural `ET.parse` failure is caught and reported as `None` (`ok none`);
afterwards any conversion error escapes as an exception. The room index is
the placeholder 0. -/
def parse_room_file (stem : String) (d : GmxDoc) : Except PyErr (Option RoomData) :=
  match d with
  | .malformed => .ok none
  | .doc r =>
    let room_name : String := ⟨replaceAll stem.data (".room".data) []⟩
    match dimValue r.width with
    | .error e => .error e
    | .ok width =>
      match dimValue r.height with
      | .error e => .error e
      | .ok height =>
        let room_code := textOrEmpty r.code
        let has_collectibles := containsSub ("rm_points = 1".data) room_code.data
        match r.instances with
        | none =>
          .ok (some ⟨room_name, 0, width, height, has_collectibles, [], [], [], [], []⟩)
        | some l =>
          match processInstances l with
          | .error e => .error e
          | .ok (sps, ws, ns, shs, sos) =>
            .ok (some ⟨room_name, 0, width, height, has_collectibles, sps, ws, ns, shs, sos⟩)

/-- The project manifest as seen by `get_room_order`: `malformed` when
`ET.parse` raises, otherwise the optional `rooms[@name='rooms']` section
with the text of each `<room>` entry. -/
inductive ProjDoc
  | malformed
  | doc (roomsSection : Option (List (Option String)))
deriving DecidableEq, Repr

/-- `get_room_order`: empty on a parse failure or a missing section;
otherwise each entry with truthy text contributes its text with every
occurrence of the literal `rooms\` removed. -/
def get_room_order : ProjDoc → List String
  | .malformed => []
  | .doc none => []
  | .doc (some entries) =>
    entries.filterMap fun t =>
      match t with
      | some s => if s = "" then none else some (⟨replaceAll s.data ("rooms\\".data) []⟩ : String)
      | none => none

/-- The dict comprehension
`{name: idx for idx, name in enumerate(room_order)}`. -/
def room_to_index (order : List String) : List (String × Nat) :=
  (order.enum).foldl (fun d p => dictInsert d p.2 p.1) []

/-- The room-file loop of `main`: parse each document in directory order;
a `None` result is skipped, an escaped exception aborts the whole run. -/
def processBatch : List (String × GmxDoc) → Except PyErr (List RoomData)
  | [] => .ok []
  | (stem, d) :: rest =>
    match parse_room_file stem d with
    | .error e => .error e
    | .ok rd =>
      match processBatch rest with
      | .error e => .error e
      | .ok tail =>
        match rd with
        | some r => .ok (r :: tail)
        | none => .ok tail

/-- The serialized warp record of the JSON output (its `code` field is not
exported). -/
structure WarpOut where
  x : Int
  y : Int
  type : String
  next_room : Option CodeVal
  new_x : Option CodeVal
  new_y : Option CodeVal
deriving DecidableEq, Repr

/-- The serialized per-room record of the JSON output. -/
structure RoomOut where
  index : Int
  width : Int
  height : Int
  has_collectibles : Bool
  spawn_points : List SpawnPoint
  warps : List WarpOut
  npcs : List Instance
  shops : List Instance
  special_objects : List Instance
deriving DecidableEq, Repr

/-- The JSON document written by `main`. -/
structure OutputData where
  rooms : List (String × RoomOut)
  room_order : List String
deriving DecidableEq, Repr

/-- The warp-dict comprehension of the export loop: every field is copied
through unchanged. -/
def serializeWarp (w : Warp) : WarpOut := ⟨w.x, w.y, w.warp_type, w.next_room, w.new_x, w.new_y⟩

/-- The per-room export record. -/
def serializeRoom (r : RoomData) : RoomOut :=
  ⟨r.room_index, r.width, r.height, r.has_collectibles, r.spawn_points,
    r.warps.map serializeWarp, r.npcs, r.shops, r.special_objects⟩

/-- The deferred index assignment
`room_data.room_index = room_to_index.get(room_data.name, -1)`. -/
def assignIndex (rti : List (String × Nat)) (r : RoomData) : RoomData :=
  ⟨r.name,
    (match dictGet rti r.name with
     | some i => (i : Int)
     | none => -1),
    r.width, r.height, r.has_collectibles, r.spawn_points, r.warps, r.npcs, r.shops,
    r.special_objects⟩

/-- The `all_rooms` accumulator of `main`: rooms are keyed by name with
last-write-wins, each with its manifest index resolved. -/
def collectRooms (order : List String) (parsed : List RoomData) : List (String × RoomData) :=
  parsed.foldl (fun acc r => dictInsert acc r.name (assignIndex (room_to_index order) r)) []

/-- The JSON document assembled by `main` from the parsed rooms and the
manifest order. -/
def buildOutput (order : List String) (parsed : List RoomData) : OutputData :=
  ⟨(collectRooms order parsed).map (fun p => (p.1, serializeRoom p.2)), order⟩

/-- The diagnostic target name of the warp-connection printout: an
in-range index is shown as the room's name, an out-of-range one as the
synthetic `room_<n>` placeholder. -/
def targetName (order : List String) (n : Int) : String :=
  if 0 ≤ n ∧ n < order.length then (order.get? n.toNat).getD ""
  else "room_" ++ toString n

/-- Spec-side description (amended reading of the manifest mapping): the
index of the last occurrence of a name in the order sequence. -/
def lastIdx? : List String → String → Option Nat
  | [], _ => none
  | a :: rest, n =>
    match lastIdx? rest n with
    | some i => some (i + 1)
    | none => if a = n then some 0 else none

theorem dictGet_dictInsert {α : Type} (d : List (String × α)) (k k' : String) (v : α) :
    dictGet (dictInsert d k v) k' = if k' = k then some v else dictGet d k' := by
  induction d with
  | nil =>
    by_cases h : k = k'
    · subst h; simp [dictInsert, dictGet]
    · simp [dictInsert, dictGet, h, Ne.symm h]
  | cons p rest ih =>
    obtain ⟨a, b⟩ := p
    by_cases ha : a = k
    · by_cases h2 : k' = k
      · simp [dictInsert, dictGet, ha, h2]
      · have hak : ¬ k = k' := fun hh => h2 hh.symm
        simp [dictInsert, dictGet, ha, h2, hak]
    · by_cases h2 : a = k'
      · have hkk : ¬ k' = k := fun hh => ha (h2.trans hh)
        simp [dictInsert, dictGet, ha, h2, hkk]
      · simp [dictInsert, dictGet, ha, h2, ih]

theorem dictGet_foldl_insert {α β : Type} (key : α → String) (val : α → β) (l : List α) :
    ∀ (d : List (String × β)) (k : String) (v : β),
      dictGet (l.foldl (fun acc x => dictInsert acc (key x) (val x)) d) k = some v →
      (∃ x ∈ l, k = key x ∧ v = val x) ∨ dictGet d k = some v := by
  induction l with
  | nil => intro d k v h; exact Or.inr h
  | cons m rest ih =>
    intro d k v h
    simp only [List.foldl_cons] at h
    rcases ih _ _ _ h with h1 | h2
    · obtain ⟨x, hx, hk, hv⟩ := h1
      exact Or.inl ⟨x, List.mem_cons_of_mem _ hx, hk, hv⟩
    · rw [dictGet_dictInsert] at h2
      by_cases hk : k = key m
      · rw [if_pos hk] at h2
        exact Or.inl ⟨m, List.mem_cons_self _ _, hk, (Option.some.inj h2).symm⟩
      · rw [if_neg hk] at h2
        exact Or.inr h2

theorem dictGet_map_value {α β : Type} (g : α → β) (d : List (String × α)) (k : String) :
    dictGet (d.map fun p => (p.1, g p.2)) k = (dictGet d k).map g := by
  induction d with
  | nil => rfl
  | cons p rest ih =>
    by_cases h : p.1 = k <;> simp [dictGet, h, ih]

theorem not_word_of_space {c : Char} (h : isPySpace c = true) : isWordChar c = false := by
  have hc := h
  simp only [isPySpace, Bool.or_eq_true, decide_eq_true_eq] at hc
  rcases hc with ((((h1 | h1) | h1) | h1) | h1) | h1 <;> subst h1 <;> decide

theorem not_space_of_word {c : Char} (h : isWordChar c = true) : isPySpace c = false := by
  cases hs : isPySpace c with
  | false => rfl
  | true => rw [not_word_of_space hs] at h; exact absurd h (by decide)

theorem word_ne_amp {c : Char} (h : isWordChar c = true) : c ≠ '&' := by
  intro hc; subst hc; exact absurd h (by decide)

theorem takeWhile_append_all {p : Char → Bool} {a : List Char} (h : ∀ c ∈ a, p c = true)
    (b : List Char) : (a ++ b).takeWhile p = a ++ b.takeWhile p := by
  induction a with
  | nil => simp
  | cons x t ih =>
    have hx : p x = true := h x (List.mem_cons_self _ _)
    simp only [List.cons_append, List.takeWhile_cons, hx, if_true]
    rw [ih fun c hc => h c (List.mem_cons_of_mem _ hc)]

theorem dropWhile_append_all {p : Char → Bool} {a : List Char} (h : ∀ c ∈ a, p c = true)
    (b : List Char) : (a ++ b).dropWhile p = b.dropWhile p := by
  induction a with
  | nil => simp
  | cons x t ih =>
    have hx : p x = true := h x (List.mem_cons_self _ _)
    simp only [List.cons_append, List.dropWhile_cons, hx, if_true]
    exact ih fun c hc => h c (List.mem_cons_of_mem _ hc)

theorem dropWhile_eq_self_of_all {p : Char → Bool} {l : List Char}
    (h : ∀ a ∈ l, p a = false) : l.dropWhile p = l := by
  cases l with
  | nil => rfl
  | cons x t => simp [List.dropWhile_cons, h x (List.mem_cons_self _ _)]

theorem pyStrip_of_all_word {w : List Char} (h : ∀ a ∈ w, isWordChar a = true) :
    pyStrip w = w := by
  unfold pyStrip
  rw [dropWhile_eq_self_of_all fun a ha => not_space_of_word (h a ha)]
  rw [dropWhile_eq_self_of_all fun a ha => not_space_of_word (h a (List.mem_reverse.mp ha))]
  exact List.reverse_reverse w

theorem scanAux_nil (fuel : Nat) : scanAux fuel [] = [] := by cases fuel <;> rfl

theorem scanAux_eq_nil (fuel : Nat) :
    ∀ cs : List Char, (∀ n, findMatchAt (cs.drop n) = none) → scanAux fuel cs = [] := by
  induction fuel with
  | zero => intro cs _; rfl
  | succ f ih =>
    intro cs h
    cases cs with
    | nil => rfl
    | cons c t =>
      have h0 := h 0
      simp only [List.drop_zero] at h0
      simp only [scanAux, h0]
      exact ih t fun n => by simpa using h (n + 1)

theorem replaceAllAux_no_amp (fuel : Nat) :
    ∀ (s pat' rep : List Char), (∀ c ∈ s, c ≠ '&') →
      replaceAllAux fuel s ('&' :: pat') rep = s := by
  induction fuel with
  | zero => intro s _ _ _; rfl
  | succ f ih =>
    intro s pat' rep h
    cases s with
    | nil => rfl
    | cons c t =>
      have hc : c ≠ '&' := h c (List.mem_cons_self _ _)
      have hpre : ('&' :: pat').isPrefixOf (c :: t) = false := by
        simp only [List.isPrefixOf, Bool.and_eq_false_iff]
        left
        exact beq_eq_false_iff_ne.mpr fun hh => hc hh.symm
      simp only [replaceAllAux, hpre]
      rw [if_neg (by simp)]
      rw [ih t pat' rep fun x hx => h x (List.mem_cons_of_mem _ hx)]

theorem unescape_no_amp {cs : List Char} (h : ∀ c ∈ cs, c ≠ '&') : unescape cs = cs := by
  have h13 : ("&#13;".data) = '&' :: "#13;".data := rfl
  have h10 : ("&#10;".data) = '&' :: "#10;".data := rfl
  unfold unescape replaceAll
  rw [h13, h10, replaceAllAux_no_amp _ _ _ _ h, replaceAllAux_no_amp _ _ _ _ h]

theorem classifyName_warp_startsWith (n : String) (h : classifyName n = Cat.warp) :
    strStartsWith n "warp_" = true := by
  by_cases h1 : n = "obj_slimepoint"
  · rw [classifyName, if_pos h1] at h; exact absurd h (by decide)
  · by_cases h2 : strStartsWith n "warp_" = true
    · exact h2
    · exfalso
      rw [classifyName, if_neg h1, if_neg h2] at h
      by_cases h3 : strStartsWith n "NPC_" = true
      · rw [if_pos h3] at h; exact absurd h (by decide)
      · rw [if_neg h3] at h
        by_cases h4 : shopNames.contains n = true
        · rw [if_pos h4] at h; exact absurd h (by decide)
        · rw [if_neg h4] at h
          by_cases h5 : specialNames.contains n = true
          · rw [if_pos h5] at h; exact absurd h (by decide)
          · rw [if_neg h5] at h; exact absurd h (by decide)

theorem processInstances_cons_inv (i : InstXml) (rest : List InstXml)
    (sps : List SpawnPoint) (ws : List Warp) (ns shs sos : List Instance)
    (h : processInstances (i :: rest) = .ok (sps, ws, ns, shs, sos)) :
    ∃ x y inst_id sps' ws' ns' shs' sos',
      coordValue i.x = .ok x ∧ coordValue i.y = .ok y ∧ idValue i.id = .ok inst_id ∧
      processInstances rest = .ok (sps', ws', ns', shs', sos') ∧
      ((classifyName (attrOr i.objName "") = Cat.spawn ∧
          sps = ⟨x, y⟩ :: sps' ∧ ws = ws' ∧ ns = ns' ∧ shs = shs' ∧ sos = sos') ∨
       (classifyName (attrOr i.objName "") = Cat.warp ∧ sps = sps' ∧
          ws = ⟨x, y, attrOr i.objName "",
              dictGet (parse_code_vars (some (attrOr i.code ""))) "next_room",
              dictGet (parse_code_vars (some (attrOr i.code ""))) "new_x",
              dictGet (parse_code_vars (some (attrOr i.code ""))) "new_y",
              attrOr i.code ""⟩ :: ws' ∧
          ns = ns' ∧ shs = shs' ∧ sos = sos') ∨
       (classifyName (attrOr i.objName "") = Cat.npc ∧ sps = sps' ∧ ws = ws' ∧
          ns = ⟨attrOr i.objName "", x, y, attrOr i.code "", inst_id⟩ :: ns' ∧
          shs = shs' ∧ sos = sos') ∨
       (classifyName (attrOr i.objName "") = Cat.shop ∧ sps = sps' ∧ ws = ws' ∧ ns = ns' ∧
          shs = ⟨attrOr i.objName "", x, y, attrOr i.code "", inst_id⟩ :: shs' ∧ sos = sos') ∨
       (classifyName (attrOr i.objName "") = Cat.special ∧ sps = sps' ∧ ws = ws' ∧ ns = ns' ∧
          shs = shs' ∧
          sos = ⟨attrOr i.objName "", x, y, attrOr i.code "", inst_id⟩ :: sos') ∨
       (classifyName (attrOr i.objName "") = Cat.discard ∧
          sps = sps' ∧ ws = ws' ∧ ns = ns' ∧ shs = shs' ∧ sos = sos')) := by
  cases hx : coordValue i.x with
  | error e => simp [processInstances, hx] at h
  | ok x =>
    cases hy : coordValue i.y with
    | error e => simp [processInstances, hx, hy] at h
    | ok y =>
      cases hid : idValue i.id with
      | error e => simp [processInstances, hx, hy, hid] at h
      | ok inst_id =>
        cases hrest : processInstances rest with
        | error e => simp [processInstances, hx, hy, hid, hrest] at h
        | ok t =>
          obtain ⟨sps', ws', ns', shs', sos'⟩ := t
          refine ⟨x, y, inst_id, sps', ws', ns', shs', sos', rfl, rfl, rfl, rfl, ?_⟩
          cases hcat : classifyName (attrOr i.objName "") with
          | spawn =>
            simp only [processInstances, hx, hy, hid, hrest, hcat] at h
            simp only [Except.ok.injEq, Prod.mk.injEq] at h
            obtain ⟨h1, h2, h3, h4, h5⟩ := h
            exact Or.inl ⟨rfl, h1.symm, h2.symm, h3.symm, h4.symm, h5.symm⟩
          | warp =>
            simp only [processInstances, hx, hy, hid, hrest, hcat] at h
            simp only [Except.ok.injEq, Prod.mk.injEq] at h
            obtain ⟨h1, h2, h3, h4, h5⟩ := h
            exact Or.inr (Or.inl ⟨rfl, h1.symm, h2.symm, h3.symm, h4.symm, h5.symm⟩)
          | npc =>
            simp only [processInstances, hx, hy, hid, hrest, hcat] at h
            simp only [Except.ok.injEq, Prod.mk.injEq] at h
            obtain ⟨h1, h2, h3, h4, h5⟩ := h
            exact Or.inr (Or.inr (Or.inl ⟨rfl, h1.symm, h2.symm, h3.symm, h4.symm, h5.symm⟩))
          | shop =>
            simp only [processInstances, hx, hy, hid, hrest, hcat] at h
            simp only [Except.ok.injEq, Prod.mk.injEq] at h
            obtain ⟨h1, h2, h3, h4, h5⟩ := h
            exact Or.inr (Or.inr (Or.inr (Or.inl
              ⟨rfl, h1.symm, h2.symm, h3.symm, h4.symm, h5.symm⟩)))
          | special =>
            simp only [processInstances, hx, hy, hid, hrest, hcat] at h
            simp only [Except.ok.injEq, Prod.mk.injEq] at h
            obtain ⟨h1, h2, h3, h4, h5⟩ := h
            exact Or.inr (Or.inr (Or.inr (Or.inr (Or.inl
              ⟨rfl, h1.symm, h2.symm, h3.symm, h4.symm, h5.symm⟩))))
          | discard =>
            simp only [processInstances, hx, hy, hid, hrest, hcat] at h
            simp only [Except.ok.injEq, Prod.mk.injEq] at h
            obtain ⟨h1, h2, h3, h4, h5⟩ := h
            exact Or.inr (Or.inr (Or.inr (Or.inr (Or.inr
              ⟨rfl, h1.symm, h2.symm, h3.symm, h4.symm, h5.symm⟩))))

theorem parse_room_file_ok_inv (stem : String) (r : RoomXml) (rd : RoomData)
    (h : parse_room_file stem (.doc r) = .ok (some rd)) :
    rd.name = (⟨replaceAll stem.data (".room".data) []⟩ : String) ∧
    rd.room_index = 0 ∧
    dimValue r.width = .ok rd.width ∧
    dimValue r.height = .ok rd.height ∧
    rd.has_collectibles = containsSub ("rm_points = 1".data) (textOrEmpty r.code).data ∧
    ((r.instances = none ∧ rd.spawn_points = [] ∧ rd.warps = [] ∧ rd.npcs = [] ∧
        rd.shops = [] ∧ rd.special_objects = []) ∨
      (∃ l, r.instances = some l ∧
        processInstances l =
          .ok (rd.spawn_points, rd.warps, rd.npcs, rd.shops, rd.special_objects))) := by
  cases hw : dimValue r.width with
  | error e => simp [parse_room_file, hw] at h
  | ok W =>
    cases hh : dimValue r.height with
    | error e => simp [parse_room_file, hw, hh] at h
    | ok H =>
      cases hi : r.instances with
      | none =>
        simp only [parse_room_file, hw, hh, hi, Except.ok.injEq, Option.some.injEq] at h
        subst h
        exact ⟨rfl, rfl, rfl, rfl, rfl, Or.inl ⟨rfl, rfl, rfl, rfl, rfl, rfl⟩⟩
      | some l =>
        cases hp : processInstances l with
        | error e => simp [parse_room_file, hw, hh, hi, hp] at h
        | ok t =>
          obtain ⟨sps, ws, ns, shs, sos⟩ := t
          simp only [parse_room_file, hw, hh, hi, hp, Except.ok.injEq, Option.some.injEq] at h
          subst h
          exact ⟨rfl, rfl, rfl, rfl, rfl, Or.inr ⟨l, rfl, hp⟩⟩

theorem rti_foldl (order : List String) :
    ∀ (k0 : Nat) (d : List (String × Nat)) (name : String),
      dictGet ((order.enumFrom k0).foldl (fun d p => dictInsert d p.2 p.1) d) name =
        (match lastIdx? order name with
         | some i => some (k0 + i)
         | none => dictGet d name) := by
  induction order with
  | nil => intro k0 d name; simp [List.enumFrom, lastIdx?]
  | cons a rest ih =>
    intro k0 d name
    simp only [List.enumFrom, List.foldl_cons]
    rw [ih (k0 + 1) _ name]
    cases hl : lastIdx? rest name with
    | some i =>
      simp only [lastIdx?, hl]
      congr 1
      omega
    | none =>
      simp only [lastIdx?, hl]
      rw [dictGet_dictInsert]
      by_cases hn : a = name
      · simp [hn]
      · have hna : ¬ name = a := fun hh => hn hh.symm
        simp [hn, hna]

theorem processInstances_lengths :
    ∀ (l : List InstXml) (sps : List SpawnPoint) (ws : List Warp) (ns shs sos : List Instance),
      processInstances l = .ok (sps, ws, ns, shs, sos) →
      sps.length = (l.filter fun i => classifyName (attrOr i.objName "") = Cat.spawn).length ∧
      ws.length = (l.filter fun i => classifyName (attrOr i.objName "") = Cat.warp).length ∧
      ns.length = (l.filter fun i => classifyName (attrOr i.objName "") = Cat.npc).length ∧
      shs.length = (l.filter fun i => classifyName (attrOr i.objName "") = Cat.shop).length ∧
      sos.length = (l.filter fun i => classifyName (attrOr i.objName "") = Cat.special).length := by
  intro l
  induction l with
  | nil =>
    intro sps ws ns shs sos h
    simp only [processInstances, Except.ok.injEq, Prod.mk.injEq] at h
    obtain ⟨h1, h2, h3, h4, h5⟩ := h
    subst h1; subst h2; subst h3; subst h4; subst h5
    simp
  | cons i rest ih =>
    intro sps ws ns shs sos h
    obtain ⟨x, y, iid, sps', ws', ns', shs', sos', hx, hy, hid, hrest, hcases⟩ :=
      processInstances_cons_inv i rest sps ws ns shs sos h
    obtain ⟨ihs, ihw, ihn, ihsh, ihso⟩ := ih sps' ws' ns' shs' sos' hrest
    rcases hcases with ⟨hcat, h1, h2, h3, h4, h5⟩ | ⟨hcat, h1, h2, h3, h4, h5⟩ |
        ⟨hcat, h1, h2, h3, h4, h5⟩ | ⟨hcat, h1, h2, h3, h4, h5⟩ |
        ⟨hcat, h1, h2, h3, h4, h5⟩ | ⟨hcat, h1, h2, h3, h4, h5⟩ <;>
      subst h1 <;> subst h2 <;> subst h3 <;> subst h4 <;> subst h5 <;>
      simp [List.filter_cons, hcat, ihs, ihw, ihn, ihsh, ihso]

theorem length_filter_classify (l : List InstXml) :
    (l.filter fun i => classifyName (attrOr i.objName "") = Cat.spawn).length +
    (l.filter fun i => classifyName (attrOr i.objName "") = Cat.warp).length +
    (l.filter fun i => classifyName (attrOr i.objName "") = Cat.npc).length +
    (l.filter fun i => classifyName (attrOr i.objName "") = Cat.shop).length +
    (l.filter fun i => classifyName (attrOr i.objName "") = Cat.special).length +
    (l.filter fun i => classifyName (attrOr i.objName "") = Cat.discard).length = l.length := by
  induction l with
  | nil => rfl
  | cons i rest ih =>
    cases hcat : classifyName (attrOr i.objName "") <;>
      simp [List.filter_cons, hcat] <;> omega

theorem processInstances_warps :
    ∀ (l : List InstXml) (sps : List SpawnPoint) (ws : List Warp) (ns shs sos : List Instance),
      processInstances l = .ok (sps, ws, ns, shs, sos) →
      ∀ w ∈ ws, ∃ i ∈ l,
        classifyName (attrOr i.objName "") = Cat.warp ∧
        w.warp_type = attrOr i.objName "" ∧
        w.code = attrOr i.code "" ∧
        w.next_room = dictGet (parse_code_vars (some (attrOr i.code ""))) "next_room" ∧
        w.new_x = dictGet (parse_code_vars (some (attrOr i.code ""))) "new_x" ∧
        w.new_y = dictGet (parse_code_vars (some (attrOr i.code ""))) "new_y" := by
  intro l
  induction l with
  | nil =>
    intro sps ws ns shs sos h w hw
    simp only [processInstances, Except.ok.injEq, Prod.mk.injEq] at h
    obtain ⟨h1, h2, h3, h4, h5⟩ := h
    subst h2
    exact absurd hw (List.not_mem_nil w)
  | cons i rest ih =>
    intro sps ws ns shs sos h w hw
    obtain ⟨x, y, iid, sps', ws', ns', shs', sos', hx, hy, hid, hrest, hcases⟩ :=
      processInstances_cons_inv i rest sps ws ns shs sos h
    rcases hcases with ⟨hcat, h1, h2, h3, h4, h5⟩ | ⟨hcat, h1, h2, h3, h4, h5⟩ |
        ⟨hcat, h1, h2, h3, h4, h5⟩ | ⟨hcat, h1, h2, h3, h4, h5⟩ |
        ⟨hcat, h1, h2, h3, h4, h5⟩ | ⟨hcat, h1, h2, h3, h4, h5⟩
    · rw [h2] at hw
      obtain ⟨j, hj, hrest'⟩ := ih sps' ws' ns' shs' sos' hrest w hw
      exact ⟨j, List.mem_cons_of_mem _ hj, hrest'⟩
    · rw [h2] at hw
      rcases List.mem_cons.mp hw with hweq | hw'
      · subst hweq
        exact ⟨i, List.mem_cons_self _ _, hcat, rfl, rfl, rfl, rfl, rfl⟩
      · obtain ⟨j, hj, hrest'⟩ := ih sps' ws' ns' shs' sos' hrest w hw'
        exact ⟨j, List.mem_cons_of_mem _ hj, hrest'⟩
    · rw [h2] at hw
      obtain ⟨j, hj, hrest'⟩ := ih sps' ws' ns' shs' sos' hrest w hw
      exact ⟨j, List.mem_cons_of_mem _ hj, hrest'⟩
    · rw [h2] at hw
      obtain ⟨j, hj, hrest'⟩ := ih sps' ws' ns' shs' sos' hrest w hw
      exact ⟨j, List.mem_cons_of_mem _ hj, hrest'⟩
    · rw [h2] at hw
      obtain ⟨j, hj, hrest'⟩ := ih sps' ws' ns' shs' sos' hrest w hw
      exact ⟨j, List.mem_cons_of_mem _ hj, hrest'⟩
    · rw [h2] at hw
      obtain ⟨j, hj, hrest'⟩ := ih sps' ws' ns' shs' sos' hrest w hw
      exact ⟨j, List.mem_cons_of_mem _ hj, hrest'⟩

/-- C1: every parsed warp's integer `next_room` is carried into the
serialized output's warp record unchanged, with no range condition on the
integer; the range check against `room_order` only selects the diagnostic
printout's target name (`room_<n>` when out of range), never the
structured output. -/
theorem c1_next_room_passthrough :
    (∀ (order : List String) (parsed : List RoomData) (name : String) (ro : RoomOut),
        dictGet (buildOutput order parsed).rooms name = some ro →
        ∃ r, r ∈ parsed ∧ r.name = name ∧
          ro.warps.map (fun w => w.next_room) = r.warps.map (fun w => w.next_room) ∧
          ∀ w ∈ r.warps, ∀ n : Int, w.next_room = some (.intV n) →
            ∃ wo ∈ ro.warps, wo.next_room = some (.intV n)) ∧
    (∀ (order : List String) (n : Int), ¬(0 ≤ n ∧ n < order.length) →
        targetName order n = "room_" ++ toString n) := by
  constructor
  · intro order parsed name ro h
    simp only [buildOutput, collectRooms] at h
    rw [dictGet_map_value] at h
    obtain ⟨rd, hrd, hro⟩ := Option.map_eq_some'.mp h
    rcases dictGet_foldl_insert (fun r : RoomData => r.name)
        (fun r => assignIndex (room_to_index order) r) parsed [] name rd hrd with
      ⟨r, hr, hk, hv⟩ | hbad
    · refine ⟨r, hr, hk.symm, ?_, ?_⟩
      · rw [← hro, hv]
        show (List.map serializeWarp r.warps).map (fun w => w.next_room) =
          r.warps.map (fun w => w.next_room)
        rw [List.map_map]
        rfl
      · intro w hw n hn
        refine ⟨serializeWarp w, ?_, hn⟩
        rw [← hro, hv]
        show serializeWarp w ∈ List.map serializeWarp r.warps
        exact List.mem_map_of_mem serializeWarp hw
    · simp [dictGet] at hbad
  · intro order n hn
    rw [targetName, if_neg hn]

/-- Witness for C1: one room whose single warp targets index 99 while the
manifest has one entry; the serialized output still carries 99, and the
diagnostic name is the synthetic placeholder. -/
theorem c1_witness :
    dictGet (buildOutput ["harbor"]
        [⟨"plaza", 0, 320, 240, false, [],
          [⟨3, 4, "warp_vert", some (.intV 99), some (.intV 120), none, "next_room = 99"⟩],
          [], [], []⟩]).rooms "plaza" =
      some ⟨-1, 320, 240, false, [],
        [⟨3, 4, "warp_vert", some (.intV 99), some (.intV 120), none⟩], [], [], []⟩ ∧
    (∃ r, r ∈ [(⟨"plaza", 0, 320, 240, false, [],
          [⟨3, 4, "warp_vert", some (.intV 99), some (.intV 120), none, "next_room = 99"⟩],
          [], [], []⟩ : RoomData)] ∧ r.name = "plaza" ∧
        (⟨-1, 320, 240, false, [],
          [⟨3, 4, "warp_vert", some (.intV 99), some (.intV 120), none⟩], [], [],
          []⟩ : RoomOut).warps.map (fun w => w.next_room) =
          r.warps.map (fun w => w.next_room) ∧
        ∀ w ∈ r.warps, ∀ n : Int, w.next_room = some (.intV n) →
          ∃ wo ∈ (⟨-1, 320, 240, false, [],
            [⟨3, 4, "warp_vert", some (.intV 99), some (.intV 120), none⟩], [], [],
            []⟩ : RoomOut).warps, wo.next_room = some (.intV n)) ∧
    ¬((0 : Int) ≤ 99 ∧ (99 : Int) < ([("harbor" : String)] : List String).length) ∧
    targetName ["harbor"] 99 = "room_99" :=
  ⟨by decide,
   c1_next_room_passthrough.1 ["harbor"] _ "plaza" _ (by decide),
   by decide,
   c1_next_room_passthrough.2 ["harbor"] 99 (by decide)⟩

/-- C4 counterexample: a structurally valid document whose `width` text is
not numeric raises an uncaught conversion error inside `parse_room_file`,
and that error aborts the whole batch even though a later document is
fine — so a single document's content can make the whole run fail. -/
theorem c4_counterexample :
    parse_room_file "glitch" (.doc ⟨some (some "abc"), none, none, none⟩) =
      .error (.valueError "abc") ∧
    processBatch [("glitch", .doc ⟨some (some "abc"), none, none, none⟩),
        ("fine", .doc ⟨none, none, none, none⟩)] =
      .error (.valueError "abc") :=
  ⟨rfl, rfl⟩

/-- C4 (amended): only a structural `ET.parse` failure is caught — such a
document is reported as `None` and skipped while the batch continues; a
document that parses structurally but whose width/height/x/y/id text fails
numeric conversion raises an uncaught error that is fatal to the run. -/
theorem c4_structural_skip (stem : String) (rest : List (String × GmxDoc)) :
    parse_room_file stem .malformed = .ok none ∧
    processBatch ((stem, .malformed) :: rest) = processBatch rest := by
  refine ⟨rfl, ?_⟩
  cases hpb : processBatch rest with
  | error e => simp [processBatch, parse_room_file, hpb]
  | ok tail => simp [processBatch, parse_room_file, hpb]

/-- C5 counterexample: with a duplicated manifest entry the derived mapping
sends the name to the index of its second occurrence (1), not the first
occurrence's 0 that the claim requires. -/
theorem c5_counterexample :
    dictGet (room_to_index (get_room_order
        (.doc (some [some "rooms\\a", some "rooms\\a"])))) "a" = some 1 ∧
    ¬ dictGet (room_to_index (get_room_order
        (.doc (some [some "rooms\\a", some "rooms\\a"])))) "a" = some 0 :=
  ⟨by decide, by decide⟩

/-- C5 (amended): the mapping derived from the manifest sends each stripped
room name to its position in the order sequence, and when a name occurs
more than once the last occurrence's position wins; the manifest
`["rooms\forest", "rooms\town"]` yields the order `["forest", "town"]`
with `town` at index 1. -/
theorem c5_last_wins :
    (∀ (order : List String) (name : String),
        dictGet (room_to_index order) name = lastIdx? order name) ∧
    get_room_order (.doc (some [some "rooms\\forest", some "rooms\\town"])) =
      ["forest", "town"] ∧
    dictGet (room_to_index (get_room_order
        (.doc (some [some "rooms\\forest", some "rooms\\town"])))) "town" = some 1 := by
  refine ⟨?_, by decide, by decide⟩
  intro order name
  have h := rti_foldl order 0 [] name
  have henum : order.enum = order.enumFrom 0 := rfl
  rw [room_to_index, henum]
  cases hl : lastIdx? order name with
  | some i => rw [h, hl]; simp
  | none => rw [h, hl]; rfl

/-- C8: `has_collectibles` is exactly the substring test for the literal
marker `rm_points = 1` on the room-level script block — a plain substring
match, not a mini-language parse: the marker amid unrelated text yields
true, and a script without the exact substring (such as `rm_points = 0`,
or the unspaced `rm_points=1`) yields false. -/
theorem c8_collectibles_marker :
    (∀ (stem : String) (r : RoomXml) (rd : RoomData),
        parse_room_file stem (.doc r) = .ok (some rd) →
        rd.has_collectibles = containsSub ("rm_points = 1".data) (textOrEmpty r.code).data) ∧
    containsSub ("rm_points = 1".data) ("create();\nrm_points = 1;\nother = 2".data) = true ∧
    containsSub ("rm_points = 1".data) ("rm_points = 0".data) = false ∧
    containsSub ("rm_points = 1".data) ("rm_points=1".data) = false := by
  refine ⟨?_, by decide, by decide, by decide⟩
  intro stem r rd h
  exact (parse_room_file_ok_inv stem r rd h).2.2.2.2.1

/-- Witness for C8: a parsed room whose script block carries the marker
among unrelated text has the flag set. -/
theorem c8_witness :
    parse_room_file "meadow" (.doc ⟨none, none, some (some "abc rm_points = 1 xyz"), none⟩) =
      .ok (some ⟨"meadow", 0, 0, 0, true, [], [], [], [], []⟩) ∧
    (true : Bool) =
      containsSub ("rm_points = 1".data)
        (textOrEmpty (some (some "abc rm_points = 1 xyz"))).data :=
  ⟨rfl,
   c8_collectibles_marker.1 "meadow" ⟨none, none, some (some "abc rm_points = 1 xyz"), none⟩
     ⟨"meadow", 0, 0, 0, true, [], [], [], [], []⟩ rfl⟩

/-- C9: a structurally valid room document with no instance-list section
parses to a Room (not a failure) with all five collections empty and the
placeholder index 0, keeping the extracted width, height and collectibles
flag. -/
theorem c9_no_instance_list (stem : String) (r : RoomXml) (W H : Int)
    (hi : r.instances = none) (hw : dimValue r.width = .ok W)
    (hh : dimValue r.height = .ok H) :
    parse_room_file stem (.doc r) =
      .ok (some ⟨⟨replaceAll stem.data (".room".data) []⟩, 0, W, H,
        containsSub ("rm_points = 1".data) (textOrEmpty r.code).data, [], [], [], [], []⟩) := by
  simp only [parse_room_file, hw, hh, hi]

/-- Witness for C9: a concrete instanceless document with width 640,
height 480 and a marker-bearing script block. -/
theorem c9_witness :
    (⟨some (some "640"), some (some "480"), some (some "rm_points = 1"), none⟩ :
        RoomXml).instances = none ∧
    dimValue (some (some "640")) = .ok 640 ∧
    dimValue (some (some "480")) = .ok 480 ∧
    parse_room_file "shrine"
        (.doc ⟨some (some "640"), some (some "480"), some (some "rm_points = 1"), none⟩) =
      .ok (some ⟨"shrine", 0, 640, 480, true, [], [], [], [], []⟩) :=
  ⟨rfl, rfl, rfl,
   (c9_no_instance_list "shrine"
      ⟨some (some "640"), some (some "480"), some (some "rm_points = 1"), none⟩ 640 480 rfl
      rfl rfl).trans rfl⟩

/-- C2: the room parser classifies each instance with the ordered
first-match-wins chain (spawn-point name, warp prefix, NPC prefix, shop
set, special set, discard), so the five collections partition the instance
list by `classifyName` — each instance lands in at most one collection —
and an instance named exactly `obj_slimepoint` at (64, 32) yields exactly
one SpawnPoint at (64, 32) and nothing else. -/
theorem c2_classification :
    (∀ (stem : String) (r : RoomXml) (l : List InstXml) (rd : RoomData),
        r.instances = some l → parse_room_file stem (.doc r) = .ok (some rd) →
        rd.spawn_points.length =
            (l.filter fun i => classifyName (attrOr i.objName "") = Cat.spawn).length ∧
        rd.warps.length =
            (l.filter fun i => classifyName (attrOr i.objName "") = Cat.warp).length ∧
        rd.npcs.length =
            (l.filter fun i => classifyName (attrOr i.objName "") = Cat.npc).length ∧
        rd.shops.length =
            (l.filter fun i => classifyName (attrOr i.objName "") = Cat.shop).length ∧
        rd.special_objects.length =
            (l.filter fun i => classifyName (attrOr i.objName "") = Cat.special).length ∧
        rd.spawn_points.length + rd.warps.length + rd.npcs.length + rd.shops.length +
            rd.special_objects.length +
            (l.filter fun i => classifyName (attrOr i.objName "") = Cat.discard).length =
          l.length) ∧
    classifyName "obj_slimepoint" = Cat.spawn ∧
    parse_room_file "spawnroom" (.doc ⟨none, none, none,
        some [⟨some "obj_slimepoint", some "64", some "32", none, none⟩]⟩) =
      .ok (some ⟨"spawnroom", 0, 0, 0, false, [⟨64, 32⟩], [], [], [], []⟩) := by
  refine ⟨?_, by decide, by decide⟩
  intro stem r l rd hi h
  obtain ⟨-, -, -, -, -, hcoll⟩ := parse_room_file_ok_inv stem r rd h
  rcases hcoll with ⟨hnone, -, -, -, -, -⟩ | ⟨l', hl', hp⟩
  · rw [hi] at hnone; exact absurd hnone (by simp)
  · rw [hi] at hl'
    have hll : l' = l := (Option.some.inj hl').symm
    subst hll
    obtain ⟨h1, h2, h3, h4, h5⟩ := processInstances_lengths l' rd.spawn_points rd.warps
      rd.npcs rd.shops rd.special_objects hp
    refine ⟨h1, h2, h3, h4, h5, ?_⟩
    rw [h1, h2, h3, h4, h5]
    exact length_filter_classify l'

/-- Witness for C2: the single-`obj_slimepoint` document of the claim. -/
theorem c2_witness :
    (⟨none, none, none, some [⟨some "obj_slimepoint", some "64", some "32", none, none⟩]⟩ :
        RoomXml).instances =
      some [⟨some "obj_slimepoint", some "64", some "32", none, none⟩] ∧
    parse_room_file "spawnroom" (.doc ⟨none, none, none,
        some [⟨some "obj_slimepoint", some "64", some "32", none, none⟩]⟩) =
      .ok (some ⟨"spawnroom", 0, 0, 0, false, [⟨64, 32⟩], [], [], [], []⟩) ∧
    ([(⟨64, 32⟩ : SpawnPoint)].length =
      (([⟨some "obj_slimepoint", some "64", some "32", none, none⟩] : List InstXml).filter
          fun i => classifyName (attrOr i.objName "") = Cat.spawn).length) :=
  ⟨rfl, by decide,
   (c2_classification.1 "spawnroom"
      ⟨none, none, none, some [⟨some "obj_slimepoint", some "64", some "32", none, none⟩]⟩
      [⟨some "obj_slimepoint", some "64", some "32", none, none⟩]
      ⟨"spawnroom", 0, 0, 0, false, [⟨64, 32⟩], [], [], [], []⟩ rfl (by decide)).1⟩

/-- C3: every entry of the mini-language dictionary comes from a scanned
`name = value` match, and its stored value is the coercion the claim
describes: a trimmed value containing a decimal point is parsed as a
float, otherwise an integer parse is attempted, and on failure the trimmed
string itself is stored. -/
theorem c3_value_coercion (s k : String) (v : CodeVal)
    (h : dictGet (parse_code_vars (some s)) k = some v) :
    ∃ nm rawv : String, (nm, rawv) ∈ scanMatches (unescape s.data) ∧
      k = (⟨pyStrip nm.data⟩ : String) ∧
      v = (if (pyStrip rawv.data).contains '.' then
            match pyFloat? (pyStrip rawv.data) with
            | some q => CodeVal.floatV q
            | none => CodeVal.strV ⟨pyStrip rawv.data⟩
          else
            match pyInt? (pyStrip rawv.data) with
            | some n => CodeVal.intV n
            | none => CodeVal.strV ⟨pyStrip rawv.data⟩) := by
  by_cases hs : s = ""
  · subst hs
    simp [parse_code_vars, dictGet] at h
  · simp only [parse_code_vars, if_neg hs] at h
    rcases dictGet_foldl_insert (fun p : String × String => (⟨pyStrip p.1.data⟩ : String))
        (fun p => coerceValue (pyStrip p.2.data)) (scanMatches (unescape s.data)) [] k v h with
      ⟨p, hp, hk, hv⟩ | hbad
    · exact ⟨p.1, p.2, hp, hk, by rw [hv]; rfl⟩
    · simp [dictGet] at hbad

/-- Witness for C3: `pi = 3.5` stores the float 7/2, arising from a match
with the described coercion. -/
theorem c3_witness :
    dictGet (parse_code_vars (some "pi = 3.5")) "pi" = some (.floatV (mkRat 7 2)) ∧
    (∃ nm rawv : String, (nm, rawv) ∈ scanMatches (unescape "pi = 3.5".data) ∧
      ("pi" : String) = (⟨pyStrip nm.data⟩ : String) ∧
      CodeVal.floatV (mkRat 7 2) =
        (if (pyStrip rawv.data).contains '.' then
          match pyFloat? (pyStrip rawv.data) with
          | some q => CodeVal.floatV q
          | none => CodeVal.strV ⟨pyStrip rawv.data⟩
        else
          match pyInt? (pyStrip rawv.data) with
          | some n => CodeVal.intV n
          | none => CodeVal.strV ⟨pyStrip rawv.data⟩)) :=
  ⟨by decide, c3_value_coercion "pi = 3.5" "pi" (.floatV (mkRat 7 2)) (by decide)⟩

/-- C6 counterexample: a warp whose script sets `next_room` to the
non-numeric `abc` does NOT leave the field unset — the parsed Warp (and
hence the serialized record) carries the string value itself. -/
theorem c6_counterexample :
    parse_room_file "w" (.doc ⟨none, none, none,
        some [⟨some "warp_vert", none, none, some "next_room = abc", none⟩]⟩) =
      .ok (some ⟨"w", 0, 0, 0, false, [],
        [⟨0, 0, "warp_vert", some (.strV "abc"), none, none, "next_room = abc"⟩],
        [], [], []⟩) ∧
    some (CodeVal.strV "abc") ≠ (none : Option CodeVal) :=
  ⟨by decide, by decide⟩

/-- C6 (amended): every warp built from a warp-prefixed instance reads
`next_room`, `new_x`, `new_y` via `code_vars.get`, so each field is unset
exactly when the variable is absent from the parsed script; when the
variable is present the field carries the parsed value even when it is not
numeric (only the diagnostic printout ignores non-integer targets). -/
theorem c6_warp_fields (stem : String) (r : RoomXml) (l : List InstXml) (rd : RoomData)
    (hi : r.instances = some l) (h : parse_room_file stem (.doc r) = .ok (some rd)) :
    ∀ w ∈ rd.warps, ∃ i ∈ l,
      strStartsWith (attrOr i.objName "") "warp_" = true ∧
      w.warp_type = attrOr i.objName "" ∧
      w.code = attrOr i.code "" ∧
      w.next_room = dictGet (parse_code_vars (some (attrOr i.code ""))) "next_room" ∧
      w.new_x = dictGet (parse_code_vars (some (attrOr i.code ""))) "new_x" ∧
      w.new_y = dictGet (parse_code_vars (some (attrOr i.code ""))) "new_y" := by
  intro w hw
  obtain ⟨-, -, -, -, -, hcoll⟩ := parse_room_file_ok_inv stem r rd h
  rcases hcoll with ⟨hnone, -, -, -, -, -⟩ | ⟨l', hl', hp⟩
  · rw [hi] at hnone; exact absurd hnone (by simp)
  · rw [hi] at hl'
    have hll : l' = l := (Option.some.inj hl').symm
    subst hll
    obtain ⟨i, hmem, hcat, h1, h2, h3, h4, h5⟩ := processInstances_warps l' rd.spawn_points
      rd.warps rd.npcs rd.shops rd.special_objects hp w hw
    exact ⟨i, hmem, classifyName_warp_startsWith _ hcat, h1, h2, h3, h4, h5⟩

/-- Witness for C6 (amended): a warp with all three variables present and
numeric carries all three parsed values. -/
theorem c6_witness :
    parse_room_file "cave" (.doc ⟨none, none, none,
        some [⟨some "warp_hor", some "10", some "20",
          some "next_room = 2&#13;&#10;new_x = 96&#13;&#10;new_y = 128", some "5"⟩]⟩) =
      .ok (some ⟨"cave", 0, 0, 0, false, [],
        [⟨10, 20, "warp_hor", some (.intV 2), some (.intV 96), some (.intV 128),
          "next_room = 2&#13;&#10;new_x = 96&#13;&#10;new_y = 128"⟩], [], [], []⟩) ∧
    (∃ i ∈ ([⟨some "warp_hor", some "10", some "20",
          some "next_room = 2&#13;&#10;new_x = 96&#13;&#10;new_y = 128", some "5"⟩] :
          List InstXml),
      strStartsWith (attrOr i.objName "") "warp_" = true ∧
      (⟨10, 20, "warp_hor", some (.intV 2), some (.intV 96), some (.intV 128),
          "next_room = 2&#13;&#10;new_x = 96&#13;&#10;new_y = 128"⟩ : Warp).warp_type =
        attrOr i.objName "" ∧
      (⟨10, 20, "warp_hor", some (.intV 2), some (.intV 96), some (.intV 128),
          "next_room = 2&#13;&#10;new_x = 96&#13;&#10;new_y = 128"⟩ : Warp).code =
        attrOr i.code "" ∧
      (⟨10, 20, "warp_hor", some (.intV 2), some (.intV 96), some (.intV 128),
          "next_room = 2&#13;&#10;new_x = 96&#13;&#10;new_y = 128"⟩ : Warp).next_room =
        dictGet (parse_code_vars (some (attrOr i.code ""))) "next_room" ∧
      (⟨10, 20, "warp_hor", some (.intV 2), some (.intV 96), some (.intV 128),
          "next_room = 2&#13;&#10;new_x = 96&#13;&#10;new_y = 128"⟩ : Warp).new_x =
        dictGet (parse_code_vars (some (attrOr i.code ""))) "new_x" ∧
      (⟨10, 20, "warp_hor", some (.intV 2), some (.intV 96), some (.intV 128),
          "next_room = 2&#13;&#10;new_x = 96&#13;&#10;new_y = 128"⟩ : Warp).new_y =
        dictGet (parse_code_vars (some (attrOr i.code ""))) "new_y") :=
  ⟨by decide,
   c6_warp_fields "cave" ⟨none, none, none,
      some [⟨some "warp_hor", some "10", some "20",
        some "next_room = 2&#13;&#10;new_x = 96&#13;&#10;new_y = 128", some "5"⟩]⟩
      [⟨some "warp_hor", some "10", some "20",
        some "next_room = 2&#13;&#10;new_x = 96&#13;&#10;new_y = 128", some "5"⟩]
      ⟨"cave", 0, 0, 0, false, [],
        [⟨10, 20, "warp_hor", some (.intV 2), some (.intV 96), some (.intV 128),
          "next_room = 2&#13;&#10;new_x = 96&#13;&#10;new_y = 128"⟩], [], [], []⟩
      rfl (by decide)
      ⟨10, 20, "warp_hor", some (.intV 2), some (.intV 96), some (.intV 128),
        "next_room = 2&#13;&#10;new_x = 96&#13;&#10;new_y = 128"⟩
      (List.mem_cons_self _ _)⟩

/-- C7: the mini-language parser is a total function (the embedding needs
no error channel, matching the wrapped `try`/`except` of the original);
`None` or empty input yields the empty mapping, and every stored string
value is one whose attempted numeric coercion (float with a decimal point,
int otherwise) failed. -/
theorem c7_parser_never_raises :
    parse_code_vars none = [] ∧ parse_code_vars (some "") = [] ∧
    ∀ (s k r : String),
      dictGet (parse_code_vars (some s)) k = some (.strV r) →
      (if r.data.contains '.' then pyFloat? r.data = none else pyInt? r.data = none) := by
  refine ⟨rfl, rfl, ?_⟩
  intro s k r h
  by_cases hs : s = ""
  · subst hs
    simp [parse_code_vars, dictGet] at h
  · simp only [parse_code_vars, if_neg hs] at h
    rcases dictGet_foldl_insert (fun p : String × String => (⟨pyStrip p.1.data⟩ : String))
        (fun p => coerceValue (pyStrip p.2.data)) (scanMatches (unescape s.data)) [] k _ h with
      ⟨p, hp, hk, hv⟩ | hbad
    · generalize hgen : pyStrip p.2.data = t at hv
      unfold coerceValue at hv
      by_cases hd : t.contains '.'
      · rw [if_pos hd] at hv
        cases hq : pyFloat? t with
        | some q => rw [hq] at hv; exact absurd hv (by simp)
        | none =>
          rw [hq] at hv
          have hr : r = (⟨t⟩ : String) := by injection hv
          have hrd : r.data = t := by rw [hr]
          rw [hrd, if_pos hd]
          exact hq
      · rw [if_neg hd] at hv
        cases hq : pyInt? t with
        | some n => rw [hq] at hv; exact absurd hv (by simp)
        | none =>
          rw [hq] at hv
          have hr : r = (⟨t⟩ : String) := by injection hv
          have hrd : r.data = t := by rw [hr]
          rw [hrd, if_neg hd]
          exact hq
    · simp [dictGet] at hbad

/-- Witness for C7: `a = xyz` stores the string `xyz`, whose integer parse
(the branch without a decimal point) fails. -/
theorem c7_witness :
    dictGet (parse_code_vars (some "a = xyz")) "a" = some (.strV "xyz") ∧
    (if "xyz".data.contains '.' then pyFloat? "xyz".data = none
     else pyInt? "xyz".data = none) :=
  ⟨by decide, c7_parser_never_raises.2.2 "a = xyz" "a" "xyz" (by decide)⟩

theorem findMatchAt_eq_none (ws pad tail : List Char)
    (hw : ∀ c ∈ ws, isWordChar c = true)
    (hp : ∀ c ∈ pad, isPySpace c = true)
    (ht : tail = ['='] ∨ tail = ['=', '\n'] ∨ tail = ['\n'] ∨ tail = []) :
    findMatchAt (ws ++ (pad ++ tail)) = none := by
  have htw : (pad ++ tail).takeWhile isWordChar = [] := by
    cases pad with
    | nil => rcases ht with h | h | h | h <;> subst h <;> rfl
    | cons b pb =>
      have hb : isWordChar b = false := not_word_of_space (hp b (List.mem_cons_self _ _))
      simp [List.takeWhile_cons, hb]
  have htake : (ws ++ (pad ++ tail)).takeWhile isWordChar = ws := by
    rw [takeWhile_append_all hw, htw, List.append_nil]
  have hdropw : (ws ++ (pad ++ tail)).dropWhile isWordChar = pad ++ tail := by
    rw [dropWhile_append_all hw]
    cases pad with
    | nil => rcases ht with h | h | h | h <;> subst h <;> rfl
    | cons b pb =>
      have hb : isWordChar b = false := not_word_of_space (hp b (List.mem_cons_self _ _))
      simp [List.dropWhile_cons, hb]
  have hdrops : (pad ++ tail).dropWhile isPySpace = tail.dropWhile isPySpace :=
    dropWhile_append_all hp tail
  simp only [findMatchAt, htake, hdropw, hdrops]
  by_cases hws : ws = []
  · simp [hws]
  · rw [if_neg hws]
    rcases ht with h | h | h | h <;> subst h <;> rfl

theorem findMatchAt_drop_none (w pad eol : List Char)
    (hw : ∀ c ∈ w, isWordChar c = true)
    (hp : ∀ c ∈ pad, isPySpace c = true)
    (he : eol = [] ∨ eol = ['\n']) (n : Nat) :
    findMatchAt ((w ++ (pad ++ ('=' :: eol))).drop n) = none := by
  rw [List.drop_append_eq_append_drop, List.drop_append_eq_append_drop]
  apply findMatchAt_eq_none
  · exact fun c hc => hw c (List.drop_subset _ _ hc)
  · exact fun c hc => hp c (List.drop_subset _ _ hc)
  · generalize n - w.length - pad.length = k
    rcases he with h | h <;> subst h
    · rcases k with _ | k2
      · left; rfl
      · right; right; right; simp
    · rcases k with _ | k2
      · right; left; rfl
      · rcases k2 with _ | k3
        · right; right; left; rfl
        · right; right; right; simp

theorem scanAux_empty_assign (fuel : Nat) (w pad eol : List Char)
    (hw : ∀ a ∈ w, isWordChar a = true) (hp : ∀ a ∈ pad, isPySpace a = true)
    (he : eol = [] ∨ eol = ['\n']) :
    scanAux fuel (w ++ (pad ++ ('=' :: eol))) = [] :=
  scanAux_eq_nil fuel _ (findMatchAt_drop_none w pad eol hw hp he)

theorem scanAux_newline (f : Nat) : scanAux f ['\n'] = [] := by
  cases f with
  | zero => rfl
  | succ f2 =>
    have hfm : findMatchAt ['\n'] = none := rfl
    simp only [scanAux, hfm]
    exact scanAux_nil f2

theorem findMatchAt_blank (w pad sp : List Char) (c : Char)
    (hwne : w ≠ []) (hw : ∀ a ∈ w, isWordChar a = true)
    (hp : ∀ a ∈ pad, isPySpace a = true) (hs : ∀ a ∈ sp, isPySpace a = true)
    (hcs : isPySpace c = true) (hcl : isLineChar c = true) :
    findMatchAt (w ++ (pad ++ ('=' :: (sp ++ [c, '\n'])))) =
      some (⟨w⟩, ⟨[c]⟩, ['\n']) := by
  have htw : (pad ++ ('=' :: (sp ++ [c, '\n']))).takeWhile isWordChar = [] := by
    cases pad with
    | nil => rfl
    | cons b pb =>
      have hb : isWordChar b = false := not_word_of_space (hp b (List.mem_cons_self _ _))
      simp [List.takeWhile_cons, hb]
  have htake :
      (w ++ (pad ++ ('=' :: (sp ++ [c, '\n'])))).takeWhile isWordChar = w := by
    rw [takeWhile_append_all hw, htw, List.append_nil]
  have hdropw :
      (w ++ (pad ++ ('=' :: (sp ++ [c, '\n'])))).dropWhile isWordChar =
        pad ++ ('=' :: (sp ++ [c, '\n'])) := by
    rw [dropWhile_append_all hw]
    cases pad with
    | nil => rfl
    | cons b pb =>
      have hb : isWordChar b = false := not_word_of_space (hp b (List.mem_cons_self _ _))
      simp [List.dropWhile_cons, hb]
  have hdrops :
      (pad ++ ('=' :: (sp ++ [c, '\n']))).dropWhile isPySpace =
        '=' :: (sp ++ [c, '\n']) := by
    rw [dropWhile_append_all hp]
    rfl
  have hn1 : isPySpace '\n' = true := by decide
  have hn2 : isLineChar '\n' = false := by decide
  have hws3 : (sp ++ [c, '\n']).takeWhile isPySpace = sp ++ [c, '\n'] := by
    rw [takeWhile_append_all hs]
    simp [List.takeWhile_cons, hcs, hn1]
  have hr4 : (sp ++ [c, '\n']).dropWhile isPySpace = [] := by
    rw [dropWhile_append_all hs]
    simp [List.dropWhile_cons, hcs, hn1]
  have hvs : valueStart (sp ++ [c, '\n']) [] = some [c, '\n'] := by
    show vpop (sp ++ [c, '\n']).reverse [] = some [c, '\n']
    rw [List.reverse_append]
    show vpop ('\n' :: c :: sp.reverse) [] = some [c, '\n']
    simp [vpop, hcl, hn2]
  simp only [findMatchAt, htake, hdropw, hdrops]
  rw [if_neg hwne]
  simp only [hws3, hr4, hvs]
  simp [List.takeWhile_cons, hcl, hn2]

theorem scanMatches_blank (w pad sp : List Char) (c : Char)
    (hwne : w ≠ []) (hw : ∀ a ∈ w, isWordChar a = true)
    (hp : ∀ a ∈ pad, isPySpace a = true) (hs : ∀ a ∈ sp, isPySpace a = true)
    (hcs : isPySpace c = true) (hcl : isLineChar c = true) :
    scanMatches (w ++ (pad ++ ('=' :: (sp ++ [c, '\n'])))) = [(⟨w⟩, ⟨[c]⟩)] := by
  have hpos : 0 < (w ++ (pad ++ ('=' :: (sp ++ [c, '\n'])))).length := by
    cases w with
    | nil => exact absurd rfl hwne
    | cons a wt => simp
  obtain ⟨f, hf⟩ : ∃ f, (w ++ (pad ++ ('=' :: (sp ++ [c, '\n'])))).length = f + 1 :=
    ⟨(w ++ (pad ++ ('=' :: (sp ++ [c, '\n'])))).length - 1, by omega⟩
  rw [scanMatches, hf]
  have hfm := findMatchAt_blank w pad sp c hwne hw hp hs hcs hcl
  cases w with
  | nil => exact absurd rfl hwne
  | cons a wt =>
    rw [List.cons_append] at hfm
    show scanAux (f + 1) (a :: (wt ++ (pad ++ ('=' :: (sp ++ [c, '\n']))))) = _
    simp only [scanAux, hfm]
    rw [scanAux_newline f]

theorem string_mk_ne_empty {l : List Char} (h : l ≠ []) : (⟨l⟩ : String) ≠ "" := by
  intro hh
  exact h (congrArg String.data hh)

theorem pyStrip_single_space {c : Char} (h : isPySpace c = true) : pyStrip [c] = [] := by
  unfold pyStrip
  simp [List.dropWhile_cons, h]

/-- C10: an assignment whose `=` is followed only by a line break (or end
of input) yields no dictionary entry at all — the regex's `([^\r\n]+)`
cannot match — whereas one whose right-hand side is spaces/tabs before the
final line break yields an entry whose value is the empty string (the
backtracked `\s*` leaves one space to be captured and then stripped); the
two cases are observably different at the parser's interface. -/
theorem c10_empty_rhs (w pad sp : List Char) (c : Char)
    (hwne : w ≠ []) (hword : ∀ a ∈ w, isWordChar a = true)
    (hpad : ∀ a ∈ pad, a = ' ' ∨ a = '\t')
    (hsp : ∀ a ∈ sp, a = ' ' ∨ a = '\t')
    (hc : c = ' ' ∨ c = '\t') :
    parse_code_vars (some ⟨w ++ (pad ++ ['='])⟩) = [] ∧
    parse_code_vars (some ⟨w ++ (pad ++ ['=', '\n'])⟩) = [] ∧
    dictGet (parse_code_vars (some ⟨w ++ (pad ++ ['=', '\n'])⟩)) ⟨w⟩ = none ∧
    parse_code_vars (some ⟨w ++ (pad ++ ('=' :: (sp ++ [c, '\n'])))⟩) =
      [(⟨w⟩, CodeVal.strV "")] ∧
    dictGet (parse_code_vars (some ⟨w ++ (pad ++ ('=' :: (sp ++ [c, '\n'])))⟩)) ⟨w⟩ =
      some (CodeVal.strV "") := by
  have hpads : ∀ a ∈ pad, isPySpace a = true := fun a ha => by
    rcases hpad a ha with h | h <;> subst h <;> decide
  have hsps : ∀ a ∈ sp, isPySpace a = true := fun a ha => by
    rcases hsp a ha with h | h <;> subst h <;> decide
  have hcs : isPySpace c = true := by rcases hc with h | h <;> subst h <;> decide
  have hcl : isLineChar c = true := by rcases hc with h | h <;> subst h <;> decide
  have hwamp : ∀ x ∈ w, x ≠ '&' := fun x hx => word_ne_amp (hword x hx)
  have hpamp : ∀ x ∈ pad, x ≠ '&' := fun x hx => by
    rcases hpad x hx with h | h <;> subst h <;> decide
  have hsamp : ∀ x ∈ sp, x ≠ '&' := fun x hx => by
    rcases hsp x hx with h | h <;> subst h <;> decide
  have hcamp : c ≠ '&' := by rcases hc with h | h <;> subst h <;> decide
  have hwnil : ∀ t2 : List Char, w ++ (pad ++ t2) ≠ [] := by
    intro t2 hh
    rw [List.append_eq_nil] at hh
    exact hwne hh.1
  have part1 : parse_code_vars (some ⟨w ++ (pad ++ ['='])⟩) = [] := by
    simp only [parse_code_vars]
    rw [if_neg (string_mk_ne_empty (hwnil ['=']))]
    rw [unescape_no_amp ?hamp]
    case hamp =>
      intro x hx
      rcases List.mem_append.mp hx with h | h
      · exact hwamp x h
      · rcases List.mem_append.mp h with h2 | h2
        · exact hpamp x h2
        · simp at h2; subst h2; decide
    rw [scanMatches]
    rw [scanAux_empty_assign _ w pad [] hword hpads (Or.inl rfl)]
    rfl
  have part2 : parse_code_vars (some ⟨w ++ (pad ++ ['=', '\n'])⟩) = [] := by
    simp only [parse_code_vars]
    rw [if_neg (string_mk_ne_empty (hwnil ['=', '\n']))]
    rw [unescape_no_amp ?hamp2]
    case hamp2 =>
      intro x hx
      rcases List.mem_append.mp hx with h | h
      · exact hwamp x h
      · rcases List.mem_append.mp h with h2 | h2
        · exact hpamp x h2
        · simp at h2; rcases h2 with h3 | h3 <;> subst h3 <;> decide
    rw [scanMatches]
    rw [scanAux_empty_assign _ w pad ['\n'] hword hpads (Or.inr rfl)]
    rfl
  have part3 : parse_code_vars (some ⟨w ++ (pad ++ ('=' :: (sp ++ [c, '\n'])))⟩) =
      [(⟨w⟩, CodeVal.strV "")] := by
    simp only [parse_code_vars]
    rw [if_neg (string_mk_ne_empty (hwnil ('=' :: (sp ++ [c, '\n']))))]
    rw [unescape_no_amp ?hamp3]
    case hamp3 =>
      intro x hx
      rcases List.mem_append.mp hx with h | h
      · exact hwamp x h
      · rcases List.mem_append.mp h with h2 | h2
        · exact hpamp x h2
        · rcases List.mem_cons.mp h2 with h3 | h3
          · subst h3; decide
          · rcases List.mem_append.mp h3 with h4 | h4
            · exact hsamp x h4
            · simp at h4; rcases h4 with h5 | h5 <;> subst h5
              · exact hcamp
              · decide
    rw [scanMatches_blank w pad sp c hwne hword hpads hsps hcs hcl]
    simp only [List.foldl_cons, List.foldl_nil]
    rw [pyStrip_of_all_word hword, pyStrip_single_space hcs]
    rfl
  refine ⟨part1, part2, ?_, part3, ?_⟩
  · rw [part2]; rfl
  · rw [part3]
    simp [dictGet]

/-- Witness for C10: the assignments `x =` (no entry), `x =` + newline
(no entry), and `x = ` + space + newline (entry with the empty string). -/
theorem c10_witness :
    (['x'] : List Char) ≠ [] ∧
    parse_code_vars (some ⟨['x'] ++ ([' '] ++ ['='])⟩) = [] ∧
    parse_code_vars (some ⟨['x'] ++ ([' '] ++ ['=', '\n'])⟩) = [] ∧
    dictGet (parse_code_vars (some ⟨['x'] ++ ([' '] ++ ['=', '\n'])⟩)) ⟨['x']⟩ = none ∧
    parse_code_vars (some ⟨['x'] ++ ([' '] ++ ('=' :: ([] ++ [' ', '\n'])))⟩) =
      [(⟨['x']⟩, CodeVal.strV "")] ∧
    dictGet (parse_code_vars
        (some ⟨['x'] ++ ([' '] ++ ('=' :: ([] ++ [' ', '\n'])))⟩)) ⟨['x']⟩ =
      some (CodeVal.strV "") := by
  have h := c10_empty_rhs ['x'] [' '] [] ' ' (by decide) (by decide) (by decide)
    (by decide) (by decide)
  exact ⟨by decide, h.1, h.2.1, h.2.2.1, h.2.2.2.1, h.2.2.2.2⟩
